import Mathlib

/-!
Shallow embedding of src/claude_code_log/parser.py (claude-code-log).

Conventions of the embedding:
* Instants are integers (microseconds since the epoch, timezone already
  stripped); datetime.fromisoformat is modelled as integer-literal parsing,
  so a well-formed timestamp string denotes its instant and any other
  string fails to parse, exactly mirroring the parseable/unparseable split
  the source branches on.
* Python falsiness of strings (None and "" are both falsy) is modelled
  explicitly wherever the source tests a string truthily.
* The entry and span record types come from models.py, which is not among
  the provided sources; they are modelled from the spec (section 3, DATA
  MODEL), keeping exactly the fields parser.py inspects.
-/

namespace ClaudeCodeLog

/-! ### String and numeral utilities

The Python string primitives the parser relies on (strip, splitlines, join,
decimal formatting, integer parsing) are modelled structurally over character
lists so that every definition evaluates by kernel reduction. -/

/-- Decimal digit character for a digit below ten. -/
def digitChar (d : Nat) : Char :=
  if d = 0 then ('0') else if d = 1 then ('1') else if d = 2 then ('2')
  else if d = 3 then ('3') else if d = 4 then ('4') else if d = 5 then ('5')
  else if d = 6 then ('6') else if d = 7 then ('7') else if d = 8 then ('8')
  else ('9')

/-- Fuel-driven decimal digit list of a natural number (most significant first);
the fuel only serves structural recursion and any fuel above the argument is
enough. -/
def natDigitsAux : Nat → Nat → List Char
  | 0, _ => []
  | fuel + 1, n =>
    if n < 10 then [digitChar n]
    else natDigitsAux fuel (n / 10) ++ [digitChar (n % 10)]

/-- Decimal digit list of a natural number. -/
def natDigits (n : Nat) : List Char :=
  natDigitsAux (n + 1) n

/-- Decimal representation of a natural number, as a Python f-string renders it. -/
def natReprS (n : Nat) : String :=
  String.mk (natDigits n)

/-- Decimal value of a digit list (most significant first). -/
def valDigits (l : List Char) : Nat :=
  l.foldl (fun a c => 10 * a + (c.toNat - 48)) 0

/-- Parse a non-empty all-digit character list as a natural number. -/
def natOfChars (l : List Char) : Option Nat :=
  if l ≠ [] ∧ l.all Char.isDigit then Option.some (valDigits l) else Option.none

/-- Parse an optionally negated decimal character list as an integer. -/
def intOfChars : List Char → Option Int
  | [] => Option.none
  | c :: rest =>
    if c = '-' then (natOfChars rest).map (fun n => -((n : Int)))
    else (natOfChars (c :: rest)).map (fun n => ((n : Int)))

/-- Python str.strip(): drop whitespace from both ends. -/
def trimChars (l : List Char) : List Char :=
  ((l.dropWhile Char.isWhitespace).reverse.dropWhile Char.isWhitespace).reverse

/-- Python str.strip() on strings. -/
def strTrim (s : String) : String :=
  String.mk (trimChars s.data)

/-- Python "\n".join. -/
def joinNL : List String → String
  | [] => ""
  | [s] => s
  | s :: rest => s ++ "\n" ++ joinNL rest

/-- Substring test, Python pat in s on character lists. -/
def hasSub (pat : List Char) : List Char → Bool
  | [] => pat.isEmpty
  | c :: cs => pat.isPrefixOf (c :: cs) || hasSub pat cs

/-- Equality of Except values is decidable componentwise. -/
instance {ε α : Type} [DecidableEq ε] [DecidableEq α] : DecidableEq (Except ε α) :=
  fun x y =>
    match x, y with
    | Except.ok a, Except.ok b =>
      if h : a = b then Decidable.isTrue (by rw [h])
      else Decidable.isFalse (fun hc => h (by cases hc; rfl))
    | Except.error a, Except.error b =>
      if h : a = b then Decidable.isTrue (by rw [h])
      else Decidable.isFalse (fun hc => h (by cases hc; rfl))
    | Except.ok _, Except.error _ => Decidable.isFalse (fun hc => Except.noConfusion hc)
    | Except.error _, Except.ok _ => Decidable.isFalse (fun hc => Except.noConfusion hc)

/-- Modelled from the spec: content items of a message (models.py is absent from
the sources; spec section 3 lists the tagged union Text, Thinking, ToolUse,
ToolResult, Image).  Only the fields parser.py inspects are kept: the text of
text items and the name of tool_use items. -/
inductive ContentItem where
  | text (text : String)
  | thinking (text : String)
  | tool_use (name : String)
  | tool_result
  | image
  deriving DecidableEq, Repr

/-- Modelled from the spec: message content is a string, a list of content items,
or absent (Python None). -/
inductive Content where
  | null
  | str (s : String)
  | items (l : List ContentItem)
  deriving DecidableEq, Repr

/-- Modelled from the spec: the message payload of an entry; parser.py reads only
its content attribute. -/
structure Message where
  content : Content
  deriving DecidableEq, Repr

/-- Modelled from the spec: one transcript record.  User, assistant and system
entries carry a type tag, a sessionId and a timestamp (either may be absent);
SummaryTranscriptEntry has neither sessionId, timestamp nor message, and its
type tag reads "summary".  The type tag is kept as a plain string, exactly as
parser.py reads it via getattr(m, "type", ""). -/
inductive TranscriptEntry where
  | summary (summaryText : String) (leafUuid : String)
  | record (etype : String) (sessionId : Option String) (timestamp : Option String)
      (message : Option Message)
  deriving DecidableEq, Repr

instance : Inhabited TranscriptEntry :=
  ⟨TranscriptEntry.record ("") Option.none Option.none Option.none⟩

/-- Python getattr(m, "type", ""): a SummaryTranscriptEntry reports type "summary". -/
def etype : TranscriptEntry → String
  | .summary _ _ => "summary"
  | .record t _ _ _ => t

/-- Python isinstance(m, SummaryTranscriptEntry). -/
def isSummary : TranscriptEntry → Bool
  | .summary _ _ => true
  | .record _ _ _ _ => false

/-- Python getattr(m, "sessionId", None): absent on summaries. -/
def sessionIdOf : TranscriptEntry → Option String
  | .summary _ _ => Option.none
  | .record _ sid _ _ => sid

/-- Python getattr(m, "timestamp", None): absent on summaries. -/
def timestampOf : TranscriptEntry → Option String
  | .summary _ _ => Option.none
  | .record _ _ ts _ => ts

/-- Python getattr(m, "message", None): absent on summaries. -/
def messageOf : TranscriptEntry → Option Message
  | .summary _ _ => Option.none
  | .record _ _ _ msg => msg

/-- Python getattr(getattr(m, "message", None), "content", None) as used by
fold_message in parser.py. -/
def contentOf (m : TranscriptEntry) : Content :=
  match messageOf m with
  | Option.some msg => msg.content
  | Option.none => Content.null

/-- parse_timestamp from parser.py, under the integer-instant model of the file
header: fromisoformat succeeds exactly on well-formed strings and yields the
denoted instant. -/
def parse_timestamp (s : String) : Option Int :=
  intOfChars s.data

/-- extract_text_content from parser.py: None and the empty string give "", a
plain string gives itself, a list joins the text of its text items with
newlines (thinking and all other items are skipped). -/
def extract_text_content : Content → String
  | Content.null => ""
  | Content.str s => s
  | Content.items l =>
    joinNL (l.filterMap (fun it =>
      match it with
      | ContentItem.text t => Option.some t
      | _ => Option.none))

/-- The helper _has_tool_activity from parser.py (leading underscore dropped):
true iff the content is a list holding a tool_use, tool_result, thinking or
image item. -/
def has_tool_activity : Content → Bool
  | Content.null => false
  | Content.str _ => false
  | Content.items l => l.any (fun it =>
      match it with
      | ContentItem.text _ => false
      | _ => true)

/-- The helper _contains_todowrite from parser.py (leading underscore dropped):
true iff the content is a list holding a tool_use item named exactly
"TodoWrite". -/
def contains_todowrite : Content → Bool
  | Content.items l => l.any (fun it =>
      match it with
      | ContentItem.tool_use n => decide (n = "TodoWrite")
      | _ => false)
  | _ => false

/-- Modelled from the spec: the Span record produced by the segmenter (spec
section 3, DATA MODEL).  kind is kept as a plain string. -/
structure Span where
  id : String
  title : Option String
  kind : String
  start_index : Nat
  end_index : Nat
  message_indices : List Nat
  start_timestamp : Option String
  end_timestamp : Option String
  session_id : Option String
  deriving DecidableEq, Repr

/-- The mutable span accumulator dictionary of group_messages_into_spans. -/
structure SpanAcc where
  start_index : Nat
  end_index : Nat
  message_indices : List Nat
  session_id : Option String
  start_timestamp : Option String
  end_timestamp : Option String
  kind : String
  title : Option String
  has_tooling : Bool
  has_todo : Bool
  all_system : Bool
  deriving DecidableEq, Repr

/-- Python text.strip().splitlines()[0][:120], the title candidate derived from a
message text whose strip is non-empty: the characters of the stripped text up
to the first newline, truncated to 120 characters (line terminators other than
the newline character do not occur in this model). -/
def titleLine (text : String) : String :=
  String.mk (((trimChars text.data).takeWhile (fun c => !(c = ('\n')))).take 120)

/-- The timestamp of one entry as an instant: the body of get_dt in parser.py,
getattr(m, "timestamp", None) guarded by Python truthiness, then
parse_timestamp. -/
def entryDT (m : TranscriptEntry) : Option Int :=
  match timestampOf m with
  | Option.some ts => if ts = "" then Option.none else parse_timestamp ts
  | Option.none => Option.none

/-- get_dt from group_messages_into_spans: reads seq, the summary-filtered list. -/
def get_dt (seq : List TranscriptEntry) (i : Nat) : Option Int :=
  entryDT (seq.getD i default)

/-- start_new_span from group_messages_into_spans; reads seq[start_idx]. -/
def start_new_span (seq : List TranscriptEntry) (start_idx : Nat) : SpanAcc :=
  let m := seq.getD start_idx default
  { start_index := start_idx
    end_index := start_idx
    message_indices := [start_idx]
    session_id := sessionIdOf m
    start_timestamp := timestampOf m
    end_timestamp := timestampOf m
    kind := "unknown"
    title := Option.none
    has_tooling := false
    has_todo := false
    all_system := true }

/-- fold_message from group_messages_into_spans.  The source mutates the
accumulator in place and sets the title with two consecutive guarded
assignments (user first, then assistant, each firing only while the title is
still None); an entry's type tag cannot be both "user" and "assistant", so
this equals the single match below.  Note that the source reads messages[i],
the unfiltered input list, not seq[i]. -/
def fold_message (messages : List TranscriptEntry) (i : Nat) (cur : SpanAcc) : SpanAcc :=
  let m := messages.getD i default
  let content := contentOf m
  let text := extract_text_content content
  { cur with
    end_index := i
    message_indices := cur.message_indices ++ [i]
    end_timestamp := timestampOf m
    has_tooling := cur.has_tooling || has_tool_activity content
    has_todo := cur.has_todo || contains_todowrite content
    all_system := cur.all_system && decide (etype m = "system")
    title :=
      match cur.title with
      | Option.some t => Option.some t
      | Option.none =>
        if etype m = "user" ∧ strTrim text ≠ "" then Option.some (titleLine text)
        else if etype m = "assistant" ∧ strTrim text ≠ "" then Option.some (titleLine text)
        else Option.none }

/-- Python cur["session_id"] or "span": None and the empty string are falsy. -/
def sessOr : Option String → String
  | Option.some s => if s = "" then "span" else s
  | Option.none => "span"

/-- The span id f-string of finalize_current_span. -/
def span_id_str (sid : Option String) (a b : Nat) : String :=
  sessOr sid ++ "-" ++ natReprS a ++ "-" ++ natReprS b

/-- finalize_current_span from group_messages_into_spans: classify the kind by
priority todo, tooling, system, chat, build the id and emit the Span. -/
def finalize_current_span (cur : SpanAcc) : Span :=
  let kind : String :=
    if cur.has_todo then "todo"
    else if cur.has_tooling then "tooling"
    else if cur.all_system then "system"
    else "chat"
  { id := span_id_str cur.session_id cur.start_index cur.end_index
    title := cur.title
    kind := kind
    start_index := cur.start_index
    end_index := cur.end_index
    message_indices := cur.message_indices
    start_timestamp := cur.start_timestamp
    end_timestamp := cur.end_timestamp
    session_id := cur.session_id }

/-- The boundary test of the main loop of group_messages_into_spans, for the
adjacent pair at positions i-1 and i of seq: boundary iff the sessionId
changed, or both instants parse and their gap strictly exceeds gap_seconds
(instants are in microseconds, hence the scaling). -/
def boundaryAt (seq : List TranscriptEntry) (gap_seconds : Int) (i : Nat) : Bool :=
  let prev_sess := sessionIdOf (seq.getD (i - 1) default)
  let cur_sess := sessionIdOf (seq.getD i default)
  if prev_sess ≠ cur_sess then true
  else
    match get_dt seq (i - 1), get_dt seq i with
    | Option.some p, Option.some c => decide (c - p > gap_seconds * 1000000)
    | _, _ => false

/-- The main loop of group_messages_into_spans over the remaining positions of
seq, carrying the open accumulator; emits the closed spans in order. -/
def spanGo (messages seq : List TranscriptEntry) (gap_seconds : Int) :
    List Nat → SpanAcc → List Span
  | [], cur => [finalize_current_span cur]
  | i :: rest, cur =>
    if boundaryAt seq gap_seconds i then
      finalize_current_span cur ::
        spanGo messages seq gap_seconds rest (fold_message messages i (start_new_span seq i))
    else
      spanGo messages seq gap_seconds rest (fold_message messages i cur)

/-- The summary-filtered working list seq of group_messages_into_spans. -/
def non_summary (messages : List TranscriptEntry) : List TranscriptEntry :=
  messages.filter (fun m => !(isSummary m))

/-- group_messages_into_spans from parser.py (the source defaults gap_seconds to
600; the embedding passes it explicitly).  An empty input and an all-summary
input both return no spans, matching the two early returns of the source. -/
def group_messages_into_spans (messages : List TranscriptEntry) (gap_seconds : Int) :
    List Span :=
  let seq := non_summary messages
  if seq.isEmpty then []
  else
    spanGo messages seq gap_seconds (List.range' 1 (seq.length - 1))
      (fold_message messages 0 (start_new_span seq 0))

/-! ### Date filtering (filter_messages_by_date) -/

/-- Microseconds in one day. -/
def muday : Int := 86400000000

/-- Python datetime.replace(hour=0, minute=0, second=0, microsecond=0): the start
of the instant's day (floor division handles pre-epoch instants). -/
def dayFloor (t : Int) : Int := muday * Int.fdiv t muday

/-- Python datetime.replace(hour=23, minute=59, second=59, microsecond=999999):
the last representable instant of the instant's day. -/
def dayCeil (t : Int) : Int := dayFloor t + (muday - 1)

/-- The character list of the literal " days ago". -/
def daysAgoSuffix : List Char := (" days ago").data

/-- Recognize strings of the form N days ago with N a decimal numeral, giving N. -/
def parseDaysAgo (s : String) : Option Nat :=
  let cs := s.data
  if cs.length ≥ daysAgoSuffix.length + 1 ∧
      cs.drop (cs.length - daysAgoSuffix.length) = daysAgoSuffix ∧
      (cs.take (cs.length - daysAgoSuffix.length)).all Char.isDigit then
    Option.some (valDigits (cs.take (cs.length - daysAgoSuffix.length)))
  else Option.none

/-- Modelled from the documented behaviour of the external dateparser library
(parser.py calls dateparser.parse): "today" resolves to the current instant,
"yesterday" to the same time one day earlier, "N days ago" to the same time N
days earlier, a decimal integer string to that absolute instant, and anything
else fails.  The ambient clock is the explicit parameter now. -/
def dateparser_parse (now : Int) (s : String) : Option Int :=
  if s = "today" then Option.some now
  else if s = "yesterday" then Option.some (now - muday)
  else
    match parseDaysAgo s with
    | Option.some n => Option.some (now - (n : Int) * muday)
    | Option.none => intOfChars s.data

/-- The relative-day test of filter_messages_by_date:
date in ["today", "yesterday"] or "days ago" in date. -/
def relative_day (s : String) : Bool :=
  decide (s = "today") || decide (s = "yesterday") || hasSub (("days ago").data) s.data

/-- Resolution of the from bound (lines 75 to 81 of parser.py): parse with
dateparser, then floor relative single-day expressions to the start of their
day; None means dateparser failed and the caller raises. -/
def resolve_from_dt (now : Int) (s : String) : Option Int :=
  match dateparser_parse now s with
  | Option.none => Option.none
  | Option.some dt => Option.some (if relative_day s then dayFloor dt else dt)

/-- Resolution of the to bound (lines 83 to 89 of parser.py): parse with
dateparser, then ceiling relative single-day expressions to the end of their
day. -/
def resolve_to_dt (now : Int) (s : String) : Option Int :=
  match dateparser_parse now s with
  | Option.none => Option.none
  | Option.some dt => Option.some (if relative_day s then dayCeil dt else dt)

/-- Python truthiness of an optional string: None and "" are falsy. -/
def truthyO : Option String → Bool
  | Option.some s => !(decide (s = ""))
  | Option.none => false

/-- The per-message body of the filtering loop of filter_messages_by_date:
summaries are always kept; a missing, empty or unparseable timestamp drops the
message; otherwise the instant must not lie strictly before the from bound nor
strictly after the to bound. -/
def keepMessage (from_dt to_dt : Option Int) (m : TranscriptEntry) : Bool :=
  if isSummary m then true
  else
    match timestampOf m with
    | Option.none => false
    | Option.some ts =>
      if ts = "" then false
      else
        match parse_timestamp ts with
        | Option.none => false
        | Option.some t =>
          (match from_dt with
           | Option.some f => !(decide (t < f))
           | Option.none => true) &&
          (match to_dt with
           | Option.some u => !(decide (t > u))
           | Option.none => true)

/-- Computation of from_dt at the top of filter_messages_by_date: None when the
bound is absent or empty (Python falsy), the resolved instant when dateparser
succeeds, and the ValueError raise otherwise. -/
def from_bound (now : Int) (from_date : Option String) : Except String (Option Int) :=
  match from_date with
  | Option.some s =>
    if s = "" then Except.ok Option.none
    else
      match resolve_from_dt now s with
      | Option.some dt => Except.ok (Option.some dt)
      | Option.none => Except.error ("Could not parse from-date: " ++ s)
  | Option.none => Except.ok Option.none

/-- Computation of to_dt at the top of filter_messages_by_date, as from_bound. -/
def to_bound (now : Int) (to_date : Option String) : Except String (Option Int) :=
  match to_date with
  | Option.some s =>
    if s = "" then Except.ok Option.none
    else
      match resolve_to_dt now s with
      | Option.some dt => Except.ok (Option.some dt)
      | Option.none => Except.error ("Could not parse to-date: " ++ s)
  | Option.none => Except.ok Option.none

/-- filter_messages_by_date from parser.py.  Unparseable non-empty bounds raise
ValueError, modelled as Except.error; the from bound is resolved first, then
the to bound, then the list is filtered element-wise. -/
def filter_messages_by_date (now : Int) (messages : List TranscriptEntry)
    (from_date to_date : Option String) : Except String (List TranscriptEntry) :=
  if !(truthyO from_date) && !(truthyO to_date) then Except.ok messages
  else
    match from_bound now from_date with
    | Except.error e => Except.error e
    | Except.ok fdt =>
      match to_bound now to_date with
      | Except.error e => Except.error e
      | Except.ok tdt => Except.ok (messages.filter (keepMessage fdt tdt))

/-! ### Ingestion (load_transcript) -/

/-- Modelled from the spec: the outcome of json.loads followed by the type check
and parse_transcript_entry for one non-blank line.  The JSON library and the
pydantic models are external to the provided sources, so each input line
carries its decode outcome as data: the line raised a JSON decode error,
decoded to a non-object, or decoded to an object with an optional type field
whose schema conversion either produced an entry or failed with a message. -/
inductive JsonDecode where
  | decodeError (msg : String)
  | nonObject
  | object (entryType : Option String) (conv : Except String TranscriptEntry)
  deriving Repr

/-- The recognized entry types of load_transcript. -/
def recognizedType (t : String) : Bool :=
  decide (t = "user") || decide (t = "assistant") || decide (t = "summary") ||
    decide (t = "system")

/-- The shared prefix of every diagnostic line of load_transcript, naming the
source path and the 0-based line number. -/
def diagPrefix (path : String) (lineNo : Nat) : String :=
  "Line " ++ natReprS lineNo ++ " of " ++ path

/-- The loop body of load_transcript for one line: a blank line is skipped
silently; a JSON decode error, a non-object, an unrecognized (or absent) type
and a failed schema conversion each skip the line with one diagnostic; a
recognized, convertible line yields its entry.  The three except branches of
the source all print a single line carrying the path and the line number; the
regex compaction of pydantic messages is abstracted into the carried text. -/
def processLine (path : String) (lineNo : Nat) (raw : String) (d : JsonDecode) :
    Option TranscriptEntry × List (Nat × String) :=
  if strTrim raw = "" then (Option.none, [])
  else
    match d with
    | JsonDecode.decodeError e =>
      (Option.none, [(lineNo, diagPrefix path lineNo ++ (" | JSON decode error: " ++ e))])
    | JsonDecode.nonObject =>
      (Option.none,
       [(lineNo, diagPrefix path lineNo ++ (" is not a JSON object: " ++ strTrim raw))])
    | JsonDecode.object et conv =>
      if (match et with
          | Option.some t => recognizedType t
          | Option.none => false) then
        match conv with
        | Except.ok e => (Option.some e, [])
        | Except.error msg =>
          (Option.none, [(lineNo, diagPrefix path lineNo ++ (" | " ++ msg))])
      else
        (Option.none,
         [(lineNo,
           diagPrefix path lineNo ++ (" is not a recognised message type: " ++ strTrim raw))])

/-- The enumerate loop of load_transcript, threading the 0-based line number. -/
def loadGo (path : String) :
    Nat → List (String × JsonDecode) → List TranscriptEntry × List (Nat × String)
  | _, [] => ([], [])
  | lineNo, (raw, d) :: rest =>
    let pr := processLine path lineNo raw d
    let r := loadGo path (lineNo + 1) rest
    (pr.1.toList ++ r.1, pr.2 ++ r.2)

/-- load_transcript from parser.py without a cache manager: stream the lines in
order, collecting converted entries and diagnostics; the function is total, so
no line can abort ingestion. -/
def load_transcript (path : String) (lines : List (String × JsonDecode)) :
    List TranscriptEntry × List (Nat × String) :=
  loadGo path 0 lines

/-! ### Specification-side definitions

These definitions restate, in the words of the spec, the properties the claim
theorems compare against the translated source functions above. -/

instance : Inhabited Span :=
  ⟨{ id := ""
     title := Option.none
     kind := ""
     start_index := 0
     end_index := 0
     message_indices := []
     start_timestamp := Option.none
     end_timestamp := Option.none
     session_id := Option.none }⟩

/-- The accumulator obtained by opening a span at position b of seq and folding
the messages at positions b, b+1, ..., b+len (the window of one span). -/
def windowAcc (messages seq : List TranscriptEntry) (b : Nat) : Nat → SpanAcc
  | 0 => fold_message messages b (start_new_span seq b)
  | len + 1 => fold_message messages (b + len + 1) (windowAcc messages seq b len)

/-- The entries of a list at the k consecutive positions starting at b. -/
def windowEntries (messages : List TranscriptEntry) (b k : Nat) : List TranscriptEntry :=
  (List.range' b k).map (fun i => messages.getD i default)

/-- Specification-side title candidate of one entry: its first line truncated to
120 characters, provided the entry is a user or assistant message whose
extracted text is non-empty after stripping. -/
def titleStep (m : TranscriptEntry) : Option String :=
  let text := extract_text_content (contentOf m)
  if (etype m = "user" ∨ etype m = "assistant") ∧ strTrim text ≠ "" then
    Option.some (titleLine text)
  else Option.none

/-- Specification-side title of a list of entries: the candidate of the first
entry offering one. -/
def titleOfList : List TranscriptEntry → Option String
  | [] => Option.none
  | m :: rest =>
    match titleStep m with
    | Option.some t => Option.some t
    | Option.none => titleOfList rest

/-- Specification-side retention predicate of the date filter, in the words of
the claim: summaries are always retained; an entry without a usable instant is
dropped; otherwise the entry is kept iff no from bound exceeds it and no to
bound lies below it (inclusive bounds). -/
def keepClaim (from_dt to_dt : Option Int) (m : TranscriptEntry) : Bool :=
  if isSummary m then true
  else
    match entryDT m with
    | Option.none => false
    | Option.some t =>
      (from_dt.all (fun f => decide (f ≤ t))) && (to_dt.all (fun u => decide (t ≤ u)))

/-- Specification-side successful conversion of one ingested line: a non-blank
line that decoded to an object of a recognized type whose schema conversion
succeeded. -/
def okEntry (raw : String) (d : JsonDecode) : Option TranscriptEntry :=
  if strTrim raw = "" then Option.none
  else
    match d with
    | JsonDecode.object (Option.some t) (Except.ok e) =>
      if recognizedType t then Option.some e else Option.none
    | _ => Option.none

/-- Specification-side test for a line that is skipped with a diagnostic: a
non-blank line yielding no entry. -/
def isBadLine (raw : String) (d : JsonDecode) : Bool :=
  !(decide (strTrim raw = "")) && (okEntry raw d).isNone

/-- The second-to-last dash-separated field of a string, read from the right:
the decimal start index embedded in a span id. -/
def startFieldChars (s : String) : List Char :=
  (((s.data.reverse.dropWhile Char.isDigit).drop 1).takeWhile Char.isDigit).reverse

/-- A relative date expression of the form N days ago. -/
def mkDaysAgo (n : Nat) : String :=
  natReprS n ++ " days ago"

/-! ### Concrete inputs for witness and counterexample theorems -/

/-- A user entry with a plain-string message content. -/
def wUser (sid ts text : String) : TranscriptEntry :=
  TranscriptEntry.record ("user") (Option.some sid) (Option.some ts)
    (Option.some ⟨Content.str text⟩)

/-- An assistant entry with one text content item. -/
def wAssistant (sid ts text : String) : TranscriptEntry :=
  TranscriptEntry.record ("assistant") (Option.some sid) (Option.some ts)
    (Option.some ⟨Content.items [ContentItem.text text]⟩)

/-- A user entry whose content holds a TodoWrite tool_use item. -/
def wTodoUser (sid ts : String) : TranscriptEntry :=
  TranscriptEntry.record ("user") (Option.some sid) (Option.some ts)
    (Option.some ⟨Content.items [ContentItem.tool_use ("TodoWrite")]⟩)

/-- A summary entry. -/
def wSummary : TranscriptEntry :=
  TranscriptEntry.summary ("sum") ("leaf")

/-! ### Lemmas on numerals and strings -/

theorem digitChar_isDigit (d : Nat) : (digitChar d).isDigit = true := by
  unfold digitChar
  split_ifs <;> decide

theorem digitChar_toNat (d : Nat) (h : d < 10) : (digitChar d).toNat - 48 = d := by
  unfold digitChar
  split_ifs with h0 h1 h2 h3 h4 h5 h6 h7 h8
  · subst h0; decide
  · subst h1; decide
  · subst h2; decide
  · subst h3; decide
  · subst h4; decide
  · subst h5; decide
  · subst h6; decide
  · subst h7; decide
  · subst h8; decide
  · have h9 : d = 9 := by omega
    subst h9; decide

theorem valDigits_append_singleton (l : List Char) (c : Char) :
    valDigits (l ++ [c]) = 10 * valDigits l + (c.toNat - 48) := by
  simp [valDigits, List.foldl_append]

theorem natDigitsAux_val (fuel : Nat) : ∀ n, n < fuel → valDigits (natDigitsAux fuel n) = n := by
  induction fuel with
  | zero => intro n h; omega
  | succ fuel ih =>
    intro n h
    unfold natDigitsAux
    split_ifs with hlt
    · simp [valDigits, digitChar_toNat n hlt]
    · have hdiv : n / 10 < n := Nat.div_lt_self (by omega) (by omega)
      have hmod := Nat.div_add_mod n 10
      rw [valDigits_append_singleton, ih (n / 10) (by omega),
        digitChar_toNat (n % 10) (Nat.mod_lt n (by omega))]
      omega

theorem valDigits_natDigits (n : Nat) : valDigits (natDigits n) = n :=
  natDigitsAux_val (n + 1) n (Nat.lt_succ_self n)

theorem natDigits_inj {a b : Nat} (h : natDigits a = natDigits b) : a = b := by
  have := congrArg valDigits h
  rwa [valDigits_natDigits, valDigits_natDigits] at this

theorem natDigitsAux_all_digit (fuel : Nat) :
    ∀ n c, c ∈ natDigitsAux fuel n → c.isDigit = true := by
  induction fuel with
  | zero => intro n c h; simp [natDigitsAux] at h
  | succ fuel ih =>
    intro n c h
    unfold natDigitsAux at h
    split_ifs at h with hlt
    · simp at h; subst h; exact digitChar_isDigit n
    · rcases List.mem_append.mp h with h1 | h2
      · exact ih (n / 10) c h1
      · simp at h2; subst h2; exact digitChar_isDigit (n % 10)

theorem natDigits_all_digit (n : Nat) : ∀ c ∈ natDigits n, c.isDigit = true :=
  fun c hc => natDigitsAux_all_digit (n + 1) n c hc

theorem natDigits_ne_nil (n : Nat) : natDigits n ≠ [] := by
  unfold natDigits natDigitsAux
  split_ifs <;> simp

theorem dropWhile_append_of_all {p : Char → Bool} :
    ∀ (xs : List Char) (y : Char) (ys : List Char), (∀ x ∈ xs, p x = true) → p y = false →
      List.dropWhile p (xs ++ y :: ys) = y :: ys := by
  intro xs
  induction xs with
  | nil => intro y ys _ hy; simp [List.dropWhile_cons, hy]
  | cons x xs ih =>
    intro y ys hall hy
    have hx : p x = true := hall x (by simp)
    simp only [List.cons_append, List.dropWhile_cons, hx]
    exact ih y ys (fun a ha => hall a (by simp [ha])) hy

theorem takeWhile_append_of_all {p : Char → Bool} :
    ∀ (xs : List Char) (y : Char) (ys : List Char), (∀ x ∈ xs, p x = true) → p y = false →
      List.takeWhile p (xs ++ y :: ys) = xs := by
  intro xs
  induction xs with
  | nil => intro y ys _ hy; simp [List.takeWhile_cons, hy]
  | cons x xs ih =>
    intro y ys hall hy
    have hx : p x = true := hall x (by simp)
    simp only [List.cons_append, List.takeWhile_cons, hx]
    exact congrArg (x :: ·) (ih y ys (fun a ha => hall a (by simp [ha])) hy)

theorem startFieldChars_span_id (sid : Option String) (a b : Nat) :
    startFieldChars (span_id_str sid a b) = natDigits a := by
  have hdata : (span_id_str sid a b).data =
      (sessOr sid).data ++ (('-') :: (natDigits a ++ (('-') :: natDigits b))) := by
    simp [span_id_str, natReprS]
  have hb : ∀ c ∈ (natDigits b).reverse, c.isDigit = true := by
    intro c hc; exact natDigits_all_digit b c (List.mem_reverse.mp hc)
  have ha : ∀ c ∈ (natDigits a).reverse, c.isDigit = true := by
    intro c hc; exact natDigits_all_digit a c (List.mem_reverse.mp hc)
  have hdash : (('-') : Char).isDigit = false := by decide
  have hrev : (span_id_str sid a b).data.reverse =
      (natDigits b).reverse ++ (('-') ::
        ((natDigits a).reverse ++ (('-') :: (sessOr sid).data.reverse))) := by
    rw [hdata]; simp
  unfold startFieldChars
  rw [hrev, dropWhile_append_of_all (natDigits b).reverse ('-') _ hb hdash]
  simp only [List.drop_succ_cons, List.drop_zero]
  rw [takeWhile_append_of_all (natDigits a).reverse ('-') _ ha hdash, List.reverse_reverse]

theorem span_id_str_inj_start {sid1 sid2 : Option String} {a1 b1 a2 b2 : Nat}
    (h : span_id_str sid1 a1 b1 = span_id_str sid2 a2 b2) : a1 = a2 := by
  have := congrArg startFieldChars h
  rw [startFieldChars_span_id, startFieldChars_span_id] at this
  exact natDigits_inj this

/-! ### Lemmas on the span segmenter -/

theorem fold_start_index (m : List TranscriptEntry) (i : Nat) (c : SpanAcc) :
    (fold_message m i c).start_index = c.start_index := rfl

theorem fold_session_id (m : List TranscriptEntry) (i : Nat) (c : SpanAcc) :
    (fold_message m i c).session_id = c.session_id := rfl

theorem fold_start_timestamp (m : List TranscriptEntry) (i : Nat) (c : SpanAcc) :
    (fold_message m i c).start_timestamp = c.start_timestamp := rfl

theorem fold_end_index (m : List TranscriptEntry) (i : Nat) (c : SpanAcc) :
    (fold_message m i c).end_index = i := rfl

theorem fold_indices (m : List TranscriptEntry) (i : Nat) (c : SpanAcc) :
    (fold_message m i c).message_indices = c.message_indices ++ [i] := rfl

theorem fold_end_timestamp (m : List TranscriptEntry) (i : Nat) (c : SpanAcc) :
    (fold_message m i c).end_timestamp = timestampOf (m.getD i default) := rfl

theorem fold_has_todo (m : List TranscriptEntry) (i : Nat) (c : SpanAcc) :
    (fold_message m i c).has_todo =
      (c.has_todo || contains_todowrite (contentOf (m.getD i default))) := rfl

theorem fold_has_tooling (m : List TranscriptEntry) (i : Nat) (c : SpanAcc) :
    (fold_message m i c).has_tooling =
      (c.has_tooling || has_tool_activity (contentOf (m.getD i default))) := rfl

theorem fold_all_system (m : List TranscriptEntry) (i : Nat) (c : SpanAcc) :
    (fold_message m i c).all_system =
      (c.all_system && decide (etype (m.getD i default) = "system")) := rfl

theorem fold_title (m : List TranscriptEntry) (i : Nat) (c : SpanAcc) :
    (fold_message m i c).title =
      match c.title with
      | Option.some t => Option.some t
      | Option.none => titleStep (m.getD i default) := by
  cases ht : c.title with
  | some t => simp [fold_message, ht]
  | none =>
    simp only [fold_message, ht, titleStep]
    split_ifs <;> first | rfl | tauto

theorem start_new_fields (s : List TranscriptEntry) (i : Nat) :
    (start_new_span s i).start_index = i ∧ (start_new_span s i).message_indices = [i] ∧
      (start_new_span s i).title = Option.none := ⟨rfl, rfl, rfl⟩

theorem finalize_fields (c : SpanAcc) :
    (finalize_current_span c).id = span_id_str c.session_id c.start_index c.end_index ∧
      (finalize_current_span c).title = c.title ∧
      (finalize_current_span c).start_index = c.start_index ∧
      (finalize_current_span c).end_index = c.end_index ∧
      (finalize_current_span c).message_indices = c.message_indices ∧
      (finalize_current_span c).session_id = c.session_id :=
  ⟨rfl, rfl, rfl, rfl, rfl, rfl⟩

theorem finalize_kind (c : SpanAcc) :
    (finalize_current_span c).kind =
      (if c.has_todo then "todo"
       else if c.has_tooling then "tooling"
       else if c.all_system then "system"
       else "chat") := rfl

theorem windowEntries_one (m : List TranscriptEntry) (b : Nat) :
    windowEntries m b 1 = [m.getD b default] := rfl

theorem windowEntries_concat (m : List TranscriptEntry) (b k : Nat) :
    windowEntries m b (k + 1) = windowEntries m b k ++ [m.getD (b + k) default] := by
  unfold windowEntries
  rw [List.range'_concat]
  simp

theorem titleOfList_concat (l : List TranscriptEntry) (x : TranscriptEntry) :
    titleOfList (l ++ [x]) =
      match titleOfList l with
      | Option.some t => Option.some t
      | Option.none => titleStep x := by
  induction l with
  | nil =>
    simp only [List.nil_append, titleOfList]
    cases titleStep x <;> rfl
  | cons m rest ih =>
    simp only [List.cons_append, titleOfList]
    cases titleStep m with
    | some t => rfl
    | none => exact ih

theorem windowAcc_start_index (m s : List TranscriptEntry) (b : Nat) :
    ∀ len, (windowAcc m s b len).start_index = b := by
  intro len
  induction len with
  | zero => rfl
  | succ len ih =>
    show (fold_message m (b + len + 1) (windowAcc m s b len)).start_index = b
    rw [fold_start_index]; exact ih

theorem windowAcc_session_id (m s : List TranscriptEntry) (b : Nat) :
    ∀ len, (windowAcc m s b len).session_id = sessionIdOf (s.getD b default) := by
  intro len
  induction len with
  | zero => rfl
  | succ len ih =>
    show (fold_message m (b + len + 1) (windowAcc m s b len)).session_id = _
    rw [fold_session_id]; exact ih

theorem windowAcc_start_timestamp (m s : List TranscriptEntry) (b : Nat) :
    ∀ len, (windowAcc m s b len).start_timestamp = timestampOf (s.getD b default) := by
  intro len
  induction len with
  | zero => rfl
  | succ len ih =>
    show (fold_message m (b + len + 1) (windowAcc m s b len)).start_timestamp = _
    rw [fold_start_timestamp]; exact ih

theorem windowAcc_end_index (m s : List TranscriptEntry) (b : Nat) :
    ∀ len, (windowAcc m s b len).end_index = b + len := by
  intro len
  cases len with
  | zero => rfl
  | succ len => rfl

theorem windowAcc_end_timestamp (m s : List TranscriptEntry) (b : Nat) :
    ∀ len, (windowAcc m s b len).end_timestamp = timestampOf (m.getD (b + len) default) := by
  intro len
  cases len with
  | zero => rfl
  | succ len => rfl

theorem windowAcc_indices (m s : List TranscriptEntry) (b : Nat) :
    ∀ len, (windowAcc m s b len).message_indices = b :: List.range' b (len + 1) := by
  intro len
  induction len with
  | zero => rfl
  | succ len ih =>
    show (windowAcc m s b len).message_indices ++ [b + len + 1] = b :: List.range' b (len + 1 + 1)
    rw [ih]
    have h : List.range' b (len + 1 + 1) = List.range' b (len + 1) ++ [b + (len + 1)] := by
      rw [List.range'_concat]; simp
    rw [h]
    simp [Nat.add_assoc]

theorem windowAcc_has_todo (m s : List TranscriptEntry) (b : Nat) :
    ∀ len, (windowAcc m s b len).has_todo =
      (windowEntries m b (len + 1)).any (fun e => contains_todowrite (contentOf e)) := by
  intro len
  induction len with
  | zero =>
    show (false || contains_todowrite (contentOf (m.getD b default))) = _
    simp [windowEntries_one]
  | succ len ih =>
    show ((windowAcc m s b len).has_todo ||
        contains_todowrite (contentOf (m.getD (b + len + 1) default))) = _
    rw [ih, windowEntries_concat m b (len + 1)]
    simp [Nat.add_assoc]

theorem windowAcc_has_tooling (m s : List TranscriptEntry) (b : Nat) :
    ∀ len, (windowAcc m s b len).has_tooling =
      (windowEntries m b (len + 1)).any (fun e => has_tool_activity (contentOf e)) := by
  intro len
  induction len with
  | zero =>
    show (false || has_tool_activity (contentOf (m.getD b default))) = _
    simp [windowEntries_one]
  | succ len ih =>
    show ((windowAcc m s b len).has_tooling ||
        has_tool_activity (contentOf (m.getD (b + len + 1) default))) = _
    rw [ih, windowEntries_concat m b (len + 1)]
    simp [Nat.add_assoc]

theorem windowAcc_all_system (m s : List TranscriptEntry) (b : Nat) :
    ∀ len, (windowAcc m s b len).all_system =
      (windowEntries m b (len + 1)).all (fun e => decide (etype e = "system")) := by
  intro len
  induction len with
  | zero =>
    show (true && decide (etype (m.getD b default) = "system")) = _
    simp [windowEntries_one]
  | succ len ih =>
    show ((windowAcc m s b len).all_system &&
        decide (etype (m.getD (b + len + 1) default) = "system")) = _
    rw [ih, windowEntries_concat m b (len + 1)]
    simp [Nat.add_assoc]

theorem windowAcc_title (m s : List TranscriptEntry) (b : Nat) :
    ∀ len, (windowAcc m s b len).title = titleOfList (windowEntries m b (len + 1)) := by
  intro len
  induction len with
  | zero =>
    show (fold_message m b (start_new_span s b)).title = _
    rw [fold_title]
    show titleStep (m.getD b default) = titleOfList (windowEntries m b 1)
    rw [windowEntries_one]
    show _ = (match titleStep (m.getD b default) with
              | Option.some t => Option.some t
              | Option.none => titleOfList [])
    cases titleStep (m.getD b default) <;> rfl
  | succ len ih =>
    show (fold_message m (b + len + 1) (windowAcc m s b len)).title = _
    rw [fold_title, ih, windowEntries_concat m b (len + 1), titleOfList_concat]
    have harith : b + (len + 1) = b + len + 1 := rfl
    rw [harith]

theorem spanGo_map_start (m s : List TranscriptEntry) (g : Int) :
    ∀ (l : List Nat) (cur : SpanAcc),
      (spanGo m s g l cur).map (fun sp => sp.start_index) =
        cur.start_index :: l.filter (boundaryAt s g) := by
  intro l
  induction l with
  | nil => intro cur; rfl
  | cons i rest ih =>
    intro cur
    by_cases hb : boundaryAt s g i = true
    · simp only [spanGo, hb, if_true, List.map_cons, List.filter_cons_of_pos hb]
      rw [ih]
      have h1 : (fold_message m i (start_new_span s i)).start_index = i := rfl
      rw [h1]
      rfl
    · have hb' : boundaryAt s g i = false := by
        cases hcase : boundaryAt s g i with
        | false => rfl
        | true => exact absurd hcase hb
      simp only [spanGo, hb', Bool.false_eq_true, if_false]
      rw [ih, fold_start_index]
      simp [List.filter_cons, hb']

theorem spanGo_mem (m s : List TranscriptEntry) (g : Int) :
    ∀ (k b len : Nat) (sp : Span),
      sp ∈ spanGo m s g (List.range' (b + len + 1) k) (windowAcc m s b len) →
      ∃ b2 len2, b ≤ b2 ∧ b2 + len2 ≤ b + len + k ∧
        sp = finalize_current_span (windowAcc m s b2 len2) := by
  intro k
  induction k with
  | zero =>
    intro b len sp hmem
    simp only [List.range', spanGo, List.mem_singleton] at hmem
    exact ⟨b, len, Nat.le_refl b, by omega, hmem⟩
  | succ k ih =>
    intro b len sp hmem
    have hr : List.range' (b + len + 1) (k + 1) = (b + len + 1) :: List.range' (b + len + 2) k :=
      rfl
    rw [hr] at hmem
    by_cases hb : boundaryAt s g (b + len + 1) = true
    · simp only [spanGo, hb, if_true, List.mem_cons] at hmem
      rcases hmem with h1 | h2
      · exact ⟨b, len, Nat.le_refl b, by omega, h1⟩
      · have h2' : sp ∈ spanGo m s g (List.range' ((b + len + 1) + 0 + 1) k)
            (windowAcc m s (b + len + 1) 0) := h2
        rcases ih (b + len + 1) 0 sp h2' with ⟨b2, len2, hb2, hle, hsp⟩
        exact ⟨b2, len2, by omega, by omega, hsp⟩
    · have hb' : boundaryAt s g (b + len + 1) = false := by
        cases hcase : boundaryAt s g (b + len + 1) with
        | false => rfl
        | true => exact absurd hcase hb
      simp only [spanGo, hb', Bool.false_eq_true, if_false] at hmem
      have h2' : sp ∈ spanGo m s g (List.range' (b + (len + 1) + 1) k)
          (windowAcc m s b (len + 1)) := hmem
      rcases ih b (len + 1) sp h2' with ⟨b2, len2, hb2, hle, hsp⟩
      exact ⟨b2, len2, hb2, by omega, hsp⟩

theorem group_eq_spanGo (m : List TranscriptEntry) (g : Int)
    (h : non_summary m ≠ []) :
    group_messages_into_spans m g =
      spanGo m (non_summary m) g (List.range' 1 ((non_summary m).length - 1))
        (windowAcc m (non_summary m) 0 0) := by
  have hne : (non_summary m).isEmpty = false := by
    cases hn : non_summary m with
    | nil => exact absurd hn h
    | cons a l => rfl
  unfold group_messages_into_spans
  simp only [hne, Bool.false_eq_true, if_false]
  rfl

theorem group_mem (m : List TranscriptEntry) (g : Int) (sp : Span)
    (h : sp ∈ group_messages_into_spans m g) :
    ∃ b len, b + len < (non_summary m).length ∧
      sp = finalize_current_span (windowAcc m (non_summary m) b len) := by
  have hne : non_summary m ≠ [] := by
    intro hn
    rw [group_messages_into_spans] at h
    simp only [hn, List.isEmpty_nil, if_true] at h
    exact absurd h (List.not_mem_nil sp)
  have hlen : 1 ≤ (non_summary m).length := by
    cases hn : non_summary m with
    | nil => exact absurd hn hne
    | cons a l => simp
  rw [group_eq_spanGo m g hne] at h
  have h0 : sp ∈ spanGo m (non_summary m) g (List.range' (0 + 0 + 1) ((non_summary m).length - 1))
      (windowAcc m (non_summary m) 0 0) := h
  rcases spanGo_mem m (non_summary m) g ((non_summary m).length - 1) 0 0 sp h0 with
    ⟨b, len, _, hle, hsp⟩
  exact ⟨b, len, by omega, hsp⟩

theorem pairwise_lt_range' : ∀ (n s : Nat), (List.range' s n).Pairwise (· < ·) := by
  intro n
  induction n with
  | zero => intro s; exact List.Pairwise.nil
  | succ n ih =>
    intro s
    have hr : List.range' s (n + 1) = s :: List.range' (s + 1) n := rfl
    rw [hr, List.pairwise_cons]
    refine ⟨?_, ih (s + 1)⟩
    intro x hx
    rcases List.mem_range'.mp hx with ⟨j, hj, hx'⟩
    omega

theorem boundaryAt_iff (s : List TranscriptEntry) (g : Int) (i : Nat) :
    boundaryAt s g i = true ↔
      (sessionIdOf (s.getD (i - 1) default) ≠ sessionIdOf (s.getD i default) ∨
       ∃ p c, entryDT (s.getD (i - 1) default) = Option.some p ∧
         entryDT (s.getD i default) = Option.some c ∧ c - p > g * 1000000) := by
  simp only [boundaryAt, get_dt]
  split_ifs with hsess
  · exact iff_of_true rfl (Or.inl hsess)
  · push_neg at hsess
    cases h1 : entryDT (s.getD (i - 1) default) with
    | none =>
      apply iff_of_false (by simp)
      rintro (h | ⟨p, c, hp, hc, hgt⟩)
      · exact h hsess
      · exact Option.noConfusion hp
    | some p =>
      cases h2 : entryDT (s.getD i default) with
      | none =>
        apply iff_of_false (by simp)
        rintro (h | ⟨p', c', hp', hc', hgt⟩)
        · exact h hsess
        · exact Option.noConfusion hc'
      | some c =>
        constructor
        · intro hd
          exact Or.inr ⟨p, c, rfl, rfl, of_decide_eq_true hd⟩
        · rintro (h | ⟨p', c', hp', hc', hgt⟩)
          · exact absurd hsess h
          · cases Option.some.inj hp'
            cases Option.some.inj hc'
            exact decide_eq_true hgt

/-- Claim C4: in group_messages_into_spans, for every adjacent pair of
consecutive non-summary entries, a new span starts at the second entry iff
either their sessionIds differ, or both have parseable timestamps and the gap
strictly exceeds gap_seconds (in the microsecond instant model, exceeds
gap_seconds * 1000000); a same-session pair with a gap of exactly gap_seconds
stays in one span, and a pair with an unparseable timestamp on either side
never triggers a gap boundary. -/
theorem span_starts_at_iff_boundary (messages : List TranscriptEntry) (gap : Int) (i : Nat)
    (h1 : 1 ≤ i) (h2 : i < (non_summary messages).length) :
    (∃ sp ∈ group_messages_into_spans messages gap, sp.start_index = i) ↔
      (sessionIdOf ((non_summary messages).getD (i - 1) default) ≠
         sessionIdOf ((non_summary messages).getD i default) ∨
       ∃ p c, entryDT ((non_summary messages).getD (i - 1) default) = Option.some p ∧
         entryDT ((non_summary messages).getD i default) = Option.some c ∧
         c - p > gap * 1000000) := by
  have hne : non_summary messages ≠ [] := by
    intro hn; rw [hn] at h2; simp at h2
  rw [group_eq_spanGo messages gap hne]
  have hmap := spanGo_map_start messages (non_summary messages) gap
    (List.range' 1 ((non_summary messages).length - 1))
    (windowAcc messages (non_summary messages) 0 0)
  rw [windowAcc_start_index] at hmap
  rw [← boundaryAt_iff]
  constructor
  · rintro ⟨sp, hsp, hstart⟩
    have hmem : i ∈ (spanGo messages (non_summary messages) gap
        (List.range' 1 ((non_summary messages).length - 1))
        (windowAcc messages (non_summary messages) 0 0)).map (fun sp => sp.start_index) :=
      List.mem_map.mpr ⟨sp, hsp, hstart⟩
    rw [hmap] at hmem
    rcases List.mem_cons.mp hmem with h0 | hf
    · omega
    · exact (List.mem_filter.mp hf).2
  · intro hb
    have hmemr : i ∈ List.range' 1 ((non_summary messages).length - 1) := by
      apply List.mem_range'.mpr
      exact ⟨i - 1, by omega, by omega⟩
    have hmem : i ∈ (spanGo messages (non_summary messages) gap
        (List.range' 1 ((non_summary messages).length - 1))
        (windowAcc messages (non_summary messages) 0 0)).map (fun sp => sp.start_index) := by
      rw [hmap]
      exact List.mem_cons_of_mem 0 (List.mem_filter.mpr ⟨hmemr, hb⟩)
    rcases List.mem_map.mp hmem with ⟨sp, hsp, hstart⟩
    exact ⟨sp, hsp, hstart⟩

/-- Witness for C4: on two adjacent entries with different sessionIds, a new
span does start at the second entry. -/
theorem span_starts_at_iff_boundary_witness :
    ∃ sp ∈ group_messages_into_spans
        [wUser ("s1") ("0") ("x"), wUser ("s2") ("0") ("y")] 600,
      sp.start_index = 1 :=
  (span_starts_at_iff_boundary [wUser ("s1") ("0") ("x"), wUser ("s2") ("0") ("y")] 600 1
      (by decide) (by decide)).mpr
    (Or.inl (by decide))

/-- Counterexample to C1 as stated: a span that opens with an assistant message
bearing non-empty text and later folds in a user message with non-empty text
takes its title from the earlier assistant message, not from the later user
message — the title is locked as soon as any user-or-assistant text is seen. -/
theorem title_from_earlier_assistant_not_user :
    (group_messages_into_spans
        [wAssistant ("s1") ("0") ("A"), wUser ("s1") ("1000000") ("U")] 600).map
      (fun sp => sp.title) = [Option.some ("A")] ∧
    (group_messages_into_spans
        [wAssistant ("s1") ("0") ("A"), wUser ("s1") ("1000000") ("U")] 600).map
      (fun sp => sp.message_indices) = [[0, 0, 1]] ∧
    etype (wUser ("s1") ("1000000") ("U")) = "user" ∧
    strTrim (extract_text_content (contentOf (wUser ("s1") ("1000000") ("U")))) = "U" ∧
    ¬ ((Option.some ("A") : Option String) = Option.some ("U")) := by
  decide

/-- Claim C1 as amended: for entry sequences without summaries, a span's title is
the first 120 characters of the first line of the text of the earliest member
whose type is user or assistant and whose extracted text is non-empty after
stripping — whichever of the two types comes first — and the title is locked
once set. -/
theorem span_title_first_user_or_assistant (messages : List TranscriptEntry) (gap : Int)
    (sp : Span) (hnosum : ∀ m ∈ messages, isSummary m = false)
    (hsp : sp ∈ group_messages_into_spans messages gap) :
    sp.title =
      titleOfList (windowEntries messages sp.start_index
        (sp.end_index + 1 - sp.start_index)) := by
  have hseq : non_summary messages = messages := by
    apply List.filter_eq_self.mpr
    intro a ha
    simp [hnosum a ha]
  rcases group_mem messages gap sp hsp with ⟨b, len, hlt, hspEq⟩
  rw [hseq] at hspEq
  have ht : sp.title = (windowAcc messages messages b len).title := by rw [hspEq]; rfl
  have hs : sp.start_index = b := by
    rw [hspEq]
    show (windowAcc messages messages b len).start_index = b
    rw [windowAcc_start_index]
  have he : sp.end_index = b + len := by
    rw [hspEq]
    show (windowAcc messages messages b len).end_index = b + len
    rw [windowAcc_end_index]
  rw [ht, hs, he, windowAcc_title]
  have harith : b + len + 1 - b = len + 1 := by omega
  rw [harith]

/-- Witness for C1 as amended, at a single-entry input. -/
theorem span_title_first_user_or_assistant_witness :
    ((group_messages_into_spans [wUser ("s1") ("7") ("U")] 600).getD 0 default).title =
      titleOfList (windowEntries [wUser ("s1") ("7") ("U")]
        ((group_messages_into_spans [wUser ("s1") ("7") ("U")] 600).getD 0 default).start_index
        (((group_messages_into_spans [wUser ("s1") ("7") ("U")] 600).getD 0
              default).end_index + 1 -
          ((group_messages_into_spans [wUser ("s1") ("7") ("U")] 600).getD 0
              default).start_index)) :=
  span_title_first_user_or_assistant [wUser ("s1") ("7") ("U")] 600 _ (by decide) (by decide)

/-- Evaluation for C2: inserting a SummaryEntry before a user entry changes the
produced span — fold_message indexes the unfiltered list, so the span built
over the same single non-summary entry loses its title and end timestamp. -/
theorem summary_insertion_changes_spans :
    (group_messages_into_spans [wSummary, wUser ("s1") ("5") ("hi")] 600).map
      (fun sp => sp.title) = [Option.none] ∧
    (group_messages_into_spans [wUser ("s1") ("5") ("hi")] 600).map
      (fun sp => sp.title) = [Option.some ("hi")] ∧
    (group_messages_into_spans [wSummary, wUser ("s1") ("5") ("hi")] 600).map
      (fun sp => sp.end_timestamp) = [Option.none] ∧
    (group_messages_into_spans [wUser ("s1") ("5") ("hi")] 600).map
      (fun sp => sp.end_timestamp) = [Option.some ("5")] ∧
    non_summary [wSummary, wUser ("s1") ("5") ("hi")] = [wUser ("s1") ("5") ("hi")] := by
  decide

/-- Evaluation for C3: the first member index of every span is recorded twice —
start_new_span seeds message_indices with the start index and fold_message
appends it again — so even a single-entry input yields indices [0, 0]. -/
theorem first_member_index_duplicated :
    (group_messages_into_spans [wUser ("s1") ("5") ("hi")] 600).map
      (fun sp => sp.message_indices) = [[0, 0]] ∧
    ([0, 0] : List Nat).count 0 = 2 := by
  decide

/-- Evaluation for C6: with a summary entry shifting the fold lookup, a span
whose sole member carries a TodoWrite tool_use is classified chat, not todo;
without the summary the same member yields todo. -/
theorem todo_span_misclassified_after_summary :
    (group_messages_into_spans [wSummary, wTodoUser ("s1") ("5")] 600).map
      (fun sp => sp.kind) = ["chat"] ∧
    (group_messages_into_spans [wSummary, wTodoUser ("s1") ("5")] 600).map
      (fun sp => sp.message_indices) = [[0, 0]] ∧
    contains_todowrite
      (contentOf ((non_summary [wSummary, wTodoUser ("s1") ("5")]).getD 0 default)) = true ∧
    (group_messages_into_spans [wTodoUser ("s1") ("5")] 600).map
      (fun sp => sp.kind) = ["todo"] := by
  decide

/-- Counterexample to C5 as stated: with a summary entry preceding the sole user
entry, the span id is built from position 0 of the summary-filtered list, not
from the entry's original pre-filter index 1. -/
theorem span_id_ignores_prefilter_indices :
    (group_messages_into_spans [wSummary, wUser ("s1") ("5") ("x")] 600).map
      (fun sp => sp.id) = ["s1-0-0"] ∧
    isSummary ([wSummary, wUser ("s1") ("5") ("x")].getD 0 default) = true ∧
    non_summary [wSummary, wUser ("s1") ("5") ("x")] = [wUser ("s1") ("5") ("x")] ∧
    ¬ (("s1-0-0" : String) = "s1-1-1") := by
  decide

/-- Claim C5 as amended: every span id is the string
sessionId-start_index-end_index (with span substituted for an absent or empty
sessionId), where start_index and end_index are the first and last member
positions within the summary-filtered sequence, and the ids of one call are
pairwise distinct. -/
theorem span_ids_postfilter_and_distinct (messages : List TranscriptEntry) (gap : Int) :
    (group_messages_into_spans messages gap).Pairwise (fun x y => x.id ≠ y.id) ∧
    ∀ sp ∈ group_messages_into_spans messages gap,
      sp.id = span_id_str sp.session_id sp.start_index sp.end_index ∧
      sp.message_indices.head? = Option.some sp.start_index ∧
      sp.message_indices.getLast? = Option.some sp.end_index ∧
      sp.start_index ≤ sp.end_index ∧
      sp.end_index < (non_summary messages).length := by
  have hfields : ∀ sp ∈ group_messages_into_spans messages gap,
      sp.id = span_id_str sp.session_id sp.start_index sp.end_index ∧
      sp.message_indices.head? = Option.some sp.start_index ∧
      sp.message_indices.getLast? = Option.some sp.end_index ∧
      sp.start_index ≤ sp.end_index ∧
      sp.end_index < (non_summary messages).length := by
    intro sp hsp
    rcases group_mem messages gap sp hsp with ⟨b, len, hlt, hspEq⟩
    have hs : sp.start_index = b := by
      rw [hspEq]
      show (windowAcc messages (non_summary messages) b len).start_index = b
      rw [windowAcc_start_index]
    have he : sp.end_index = b + len := by
      rw [hspEq]
      show (windowAcc messages (non_summary messages) b len).end_index = b + len
      rw [windowAcc_end_index]
    have hsess : sp.session_id = (windowAcc messages (non_summary messages) b len).session_id := by
      rw [hspEq]; rfl
    have hind : sp.message_indices = b :: List.range' b (len + 1) := by
      rw [hspEq]
      show (windowAcc messages (non_summary messages) b len).message_indices = _
      rw [windowAcc_indices]
    refine ⟨?_, ?_, ?_, ?_, ?_⟩
    · rw [hspEq]; rfl
    · rw [hind, hs]; rfl
    · rw [hind, he]
      have hr : List.range' b (len + 1) = List.range' b len ++ [b + len] := by
        rw [List.range'_concat]; simp
      rw [hr]
      show ((b :: List.range' b len) ++ [b + len]).getLast? = Option.some (b + len)
      rw [List.getLast?_concat]
    · omega
    · omega
  refine ⟨?_, hfields⟩
  by_cases hne : non_summary messages = []
  · rw [group_messages_into_spans]
    simp [hne]
  · have hmap := spanGo_map_start messages (non_summary messages) gap
      (List.range' 1 ((non_summary messages).length - 1))
      (windowAcc messages (non_summary messages) 0 0)
    rw [windowAcc_start_index] at hmap
    have hmap' : (group_messages_into_spans messages gap).map (fun sp => sp.start_index) =
        0 :: (List.range' 1 ((non_summary messages).length - 1)).filter
          (boundaryAt (non_summary messages) gap) := by
      rw [group_eq_spanGo messages gap hne]
      exact hmap
    have hpw : ((group_messages_into_spans messages gap).map
        (fun sp => sp.start_index)).Pairwise (· < ·) := by
      rw [hmap']
      rw [List.pairwise_cons]
      refine ⟨?_, List.Pairwise.filter _ (pairwise_lt_range' _ 1)⟩
      intro x hx
      rcases List.mem_range'.mp (List.mem_filter.mp hx).1 with ⟨j, hj, hx'⟩
      omega
    have hpw2 := List.pairwise_map.mp hpw
    refine hpw2.imp_of_mem ?_
    intro a b ha hb hlt hid
    have hfa := (hfields a ha).1
    have hfb := (hfields b hb).1
    rw [hfa, hfb] at hid
    have := span_id_str_inj_start hid
    omega

/-- Witness for C5 as amended, at a single-entry input. -/
theorem span_ids_postfilter_and_distinct_witness :
    ((group_messages_into_spans [wUser ("s1") ("5") ("x")] 600).getD 0 default).id =
      span_id_str
        ((group_messages_into_spans [wUser ("s1") ("5") ("x")] 600).getD 0 default).session_id
        ((group_messages_into_spans [wUser ("s1") ("5") ("x")] 600).getD 0 default).start_index
        ((group_messages_into_spans [wUser ("s1") ("5") ("x")] 600).getD 0 default).end_index ∧
    ((group_messages_into_spans [wUser ("s1") ("5") ("x")] 600).getD 0
        default).message_indices.head? =
      Option.some
        ((group_messages_into_spans [wUser ("s1") ("5") ("x")] 600).getD 0 default).start_index ∧
    ((group_messages_into_spans [wUser ("s1") ("5") ("x")] 600).getD 0
        default).message_indices.getLast? =
      Option.some
        ((group_messages_into_spans [wUser ("s1") ("5") ("x")] 600).getD 0 default).end_index ∧
    ((group_messages_into_spans [wUser ("s1") ("5") ("x")] 600).getD 0 default).start_index ≤
      ((group_messages_into_spans [wUser ("s1") ("5") ("x")] 600).getD 0 default).end_index ∧
    ((group_messages_into_spans [wUser ("s1") ("5") ("x")] 600).getD 0 default).end_index <
      (non_summary [wUser ("s1") ("5") ("x")]).length :=
  (span_ids_postfilter_and_distinct [wUser ("s1") ("5") ("x")] 600).2 _ (by decide)

/-! ### Lemmas on the date filter -/

theorem bool_not_lt (t f : Int) : (!(decide (t < f))) = decide (f ≤ t) := by
  by_cases h : t < f
  · rw [decide_eq_true h, decide_eq_false (by omega : ¬ f ≤ t)]
    rfl
  · rw [decide_eq_false h, decide_eq_true (by omega : f ≤ t)]
    rfl

theorem bool_not_gt (t u : Int) : (!(decide (t > u))) = decide (t ≤ u) := by
  by_cases h : t > u
  · rw [decide_eq_true h, decide_eq_false (by omega : ¬ t ≤ u)]
    rfl
  · rw [decide_eq_false h, decide_eq_true (by omega : t ≤ u)]
    rfl

theorem keepMessage_eq_keepClaim (fdt tdt : Option Int) (m : TranscriptEntry) :
    keepMessage fdt tdt m = keepClaim fdt tdt m := by
  unfold keepMessage keepClaim entryDT
  by_cases hsum : isSummary m = true
  · simp [hsum]
  · have hsum' : isSummary m = false := by
      cases h : isSummary m with
      | false => rfl
      | true => exact absurd h hsum
    simp only [hsum', Bool.false_eq_true, if_false]
    cases timestampOf m with
    | none => rfl
    | some ts =>
      by_cases hts : ts = ""
      · simp [hts]
      · simp only [if_neg hts]
        cases parse_timestamp ts with
        | none => rfl
        | some t =>
          cases fdt with
          | none =>
            cases tdt with
            | none => rfl
            | some u =>
              show (true && !(decide (t > u))) = (true && decide (t ≤ u))
              rw [bool_not_gt]
          | some f =>
            cases tdt with
            | none =>
              show ((!(decide (t < f))) && true) = (decide (f ≤ t) && true)
              rw [bool_not_lt]
            | some u =>
              show ((!(decide (t < f))) && !(decide (t > u))) =
                (decide (f ≤ t) && decide (t ≤ u))
              rw [bool_not_lt, bool_not_gt]

theorem from_bound_some (now : Int) (s : String) (dt : Int) (hs : s ≠ "")
    (hdt : resolve_from_dt now s = Option.some dt) :
    from_bound now (Option.some s) = Except.ok (Option.some dt) := by
  show (if s = "" then Except.ok Option.none
        else match resolve_from_dt now s with
          | Option.some dt => Except.ok (Option.some dt)
          | Option.none => Except.error ("Could not parse from-date: " ++ s)) = _
  rw [if_neg hs, hdt]

theorem to_bound_some (now : Int) (s : String) (dt : Int) (hs : s ≠ "")
    (hdt : resolve_to_dt now s = Option.some dt) :
    to_bound now (Option.some s) = Except.ok (Option.some dt) := by
  show (if s = "" then Except.ok Option.none
        else match resolve_to_dt now s with
          | Option.some dt => Except.ok (Option.some dt)
          | Option.none => Except.error ("Could not parse to-date: " ++ s)) = _
  rw [if_neg hs, hdt]

/-- Claim C7: with both bounds absent the filter is the identity; with at least
one (non-empty, parseable) bound given, summaries are always retained, entries
without a usable instant are dropped silently, and an entry with instant t is
retained iff no from bound exceeds t and no to bound lies below t, bounds
inclusive. -/
theorem filter_by_date_keeps_summaries_and_in_range (now : Int)
    (messages : List TranscriptEntry) (from_date to_date : Option String)
    (hf : ∀ s, from_date = Option.some s → s ≠ "" ∧ (resolve_from_dt now s).isSome = true)
    (ht : ∀ s, to_date = Option.some s → s ≠ "" ∧ (resolve_to_dt now s).isSome = true) :
    (from_date = Option.none ∧ to_date = Option.none →
      filter_messages_by_date now messages from_date to_date = Except.ok messages) ∧
    ((from_date ≠ Option.none ∨ to_date ≠ Option.none) →
      filter_messages_by_date now messages from_date to_date =
        Except.ok (messages.filter
          (keepClaim (from_date.bind (resolve_from_dt now))
            (to_date.bind (resolve_to_dt now))))) := by
  have hfilter : ∀ fdt tdt, messages.filter (keepMessage fdt tdt) =
      messages.filter (keepClaim fdt tdt) := by
    intro fdt tdt
    apply List.filter_congr
    intro m _
    exact keepMessage_eq_keepClaim fdt tdt m
  constructor
  · rintro ⟨h1, h2⟩
    subst h1; subst h2
    rfl
  · intro hsome
    cases from_date with
    | some s =>
      rcases hf s rfl with ⟨hs, hres⟩
      rcases Option.isSome_iff_exists.mp hres with ⟨dt, hdt⟩
      have htr : (!(truthyO (Option.some s))) = false := by
        simp [truthyO, hs]
      cases to_date with
      | none =>
        unfold filter_messages_by_date
        rw [htr, from_bound_some now s dt hs hdt]
        simp only [Bool.false_and, Bool.false_eq_true, if_false]
        show Except.ok (messages.filter (keepMessage (Option.some dt) Option.none)) = _
        rw [hfilter]
        simp [hdt]
      | some s2 =>
        rcases ht s2 rfl with ⟨hs2, hres2⟩
        rcases Option.isSome_iff_exists.mp hres2 with ⟨dt2, hdt2⟩
        unfold filter_messages_by_date
        rw [htr, from_bound_some now s dt hs hdt, to_bound_some now s2 dt2 hs2 hdt2]
        simp only [Bool.false_and, Bool.false_eq_true, if_false]
        show Except.ok (messages.filter (keepMessage (Option.some dt) (Option.some dt2))) = _
        rw [hfilter]
        simp [hdt, hdt2]
    | none =>
      cases to_date with
      | none => simp at hsome
      | some s2 =>
        rcases ht s2 rfl with ⟨hs2, hres2⟩
        rcases Option.isSome_iff_exists.mp hres2 with ⟨dt2, hdt2⟩
        have htr2 : (!(truthyO (Option.some s2))) = false := by
          simp [truthyO, hs2]
        unfold filter_messages_by_date
        rw [htr2, to_bound_some now s2 dt2 hs2 hdt2]
        simp only [Bool.and_false, Bool.false_eq_true, if_false]
        show Except.ok (messages.filter (keepMessage Option.none (Option.some dt2))) = _
        rw [hfilter]
        simp [hdt2]

/-- Witness for C7: a from bound of today, with a summary, an in-range entry and
an entry lacking a timestamp. -/
theorem filter_by_date_keeps_summaries_and_in_range_witness :
    filter_messages_by_date 10
        [wSummary, wUser ("s1") ("5") ("x"),
          TranscriptEntry.record ("user") (Option.some ("s1")) Option.none Option.none]
        (Option.some ("today")) Option.none =
      Except.ok ([wSummary, wUser ("s1") ("5") ("x"),
          TranscriptEntry.record ("user") (Option.some ("s1")) Option.none Option.none].filter
        (keepClaim ((Option.some ("today")).bind (resolve_from_dt 10))
          ((Option.none : Option String).bind (resolve_to_dt 10)))) :=
  (filter_by_date_keeps_summaries_and_in_range 10
      [wSummary, wUser ("s1") ("5") ("x"),
        TranscriptEntry.record ("user") (Option.some ("s1")) Option.none Option.none]
      (Option.some ("today")) Option.none
      (by intro s hs; cases hs; exact ⟨by decide, by decide⟩)
      (by intro s hs; exact Option.noConfusion hs)).2
    (Or.inl (by simp))

/-! ### Lemmas on relative date expressions -/

theorem isPrefixOf_append_self (pat ys : List Char) : pat.isPrefixOf (pat ++ ys) = true := by
  rw [List.isPrefixOf_iff_prefix]
  exact List.prefix_append pat ys

theorem hasSub_infix : ∀ (xs pat ys : List Char), hasSub pat (xs ++ (pat ++ ys)) = true := by
  intro xs
  induction xs with
  | nil =>
    intro pat ys
    rw [List.nil_append]
    cases hp : pat with
    | nil =>
      cases ys with
      | nil => rfl
      | cons c cs => rfl
    | cons c cs =>
      show hasSub (c :: cs) ((c :: cs) ++ ys) = true
      rw [List.cons_append]
      show ((c :: cs).isPrefixOf (c :: (cs ++ ys)) || hasSub (c :: cs) (cs ++ ys)) = true
      rw [show c :: (cs ++ ys) = (c :: cs) ++ ys from rfl, isPrefixOf_append_self]
      rfl
  | cons x xs ih =>
    intro pat ys
    rw [List.cons_append]
    show (pat.isPrefixOf (x :: (xs ++ (pat ++ ys))) || hasSub pat (xs ++ (pat ++ ys))) = true
    rw [ih pat ys]
    simp

theorem mkDaysAgo_data (n : Nat) : (mkDaysAgo n).data = natDigits n ++ daysAgoSuffix := by
  show (natReprS n ++ " days ago").data = _
  rw [String.data_append]
  rfl

theorem natDigits_length_pos (n : Nat) : 1 ≤ (natDigits n).length := by
  cases hd : natDigits n with
  | nil => exact absurd hd (natDigits_ne_nil n)
  | cons a l => simp

theorem mkDaysAgo_ne_today (n : Nat) : mkDaysAgo n ≠ "today" := by
  intro h
  have hlen := congrArg (fun s => s.data.length) h
  simp only [mkDaysAgo_data, List.length_append] at hlen
  have h9 : daysAgoSuffix.length = 9 := rfl
  have h5 : ("today").data.length = 5 := rfl
  rw [h9, h5] at hlen
  omega

theorem mkDaysAgo_ne_yesterday (n : Nat) : mkDaysAgo n ≠ "yesterday" := by
  intro h
  have hlen := congrArg (fun s => s.data.length) h
  simp only [mkDaysAgo_data, List.length_append] at hlen
  have h9 : daysAgoSuffix.length = 9 := rfl
  have h9' : ("yesterday").data.length = 9 := rfl
  rw [h9, h9'] at hlen
  have := natDigits_length_pos n
  omega

theorem parseDaysAgo_mkDaysAgo (n : Nat) : parseDaysAgo (mkDaysAgo n) = Option.some n := by
  unfold parseDaysAgo
  rw [mkDaysAgo_data]
  have h9 : daysAgoSuffix.length = 9 := rfl
  have hlen : (natDigits n ++ daysAgoSuffix).length = (natDigits n).length + 9 := by
    rw [List.length_append, h9]
  have harith : (natDigits n ++ daysAgoSuffix).length - daysAgoSuffix.length =
      (natDigits n).length := by
    rw [hlen, h9]
    omega
  rw [if_pos]
  · rw [harith, List.take_left]
    rw [valDigits_natDigits]
  · have hpos := natDigits_length_pos n
    refine ⟨?_, ?_, ?_⟩
    · rw [hlen, h9]
      omega
    · rw [harith, List.drop_left]
    · rw [harith, List.take_left, List.all_eq_true]
      exact fun c hc => natDigits_all_digit n c hc

theorem relative_day_mkDaysAgo (n : Nat) : relative_day (mkDaysAgo n) = true := by
  unfold relative_day
  have hshape : (mkDaysAgo n).data = (natDigits n ++ ([(' ')])) ++ ((("days ago").data) ++ []) := by
    rw [mkDaysAgo_data, List.append_nil, List.append_assoc]
    rfl
  rw [hshape, hasSub_infix]
  simp

theorem dateparser_mkDaysAgo (now : Int) (n : Nat) :
    dateparser_parse now (mkDaysAgo n) = Option.some (now - (n : Int) * muday) := by
  unfold dateparser_parse
  rw [if_neg (mkDaysAgo_ne_today n), if_neg (mkDaysAgo_ne_yesterday n), parseDaysAgo_mkDaysAgo]

theorem resolve_from_mkDaysAgo (now : Int) (n : Nat) :
    resolve_from_dt now (mkDaysAgo n) = Option.some (dayFloor (now - (n : Int) * muday)) := by
  unfold resolve_from_dt
  rw [dateparser_mkDaysAgo, relative_day_mkDaysAgo]
  rfl

theorem resolve_to_mkDaysAgo (now : Int) (n : Nat) :
    resolve_to_dt now (mkDaysAgo n) = Option.some (dayCeil (now - (n : Int) * muday)) := by
  unfold resolve_to_dt
  rw [dateparser_mkDaysAgo, relative_day_mkDaysAgo]
  rfl

/-- Claim C8: every relative single-day expression (today, yesterday, N days
ago) resolves its from bound floored to the start of its day and its to bound
ceilinged to the last microsecond of its day; consequently, filtering with
from set to yesterday retains an entry timestamped exactly at yesterday 00:00
and excludes one timestamped one second before that (the day before at
23:59:59). -/
theorem relative_day_bounds_floor_and_ceiling (now : Int) (n : Nat) :
    resolve_from_dt now ("today") = Option.some (dayFloor now) ∧
    resolve_from_dt now ("yesterday") = Option.some (dayFloor (now - muday)) ∧
    resolve_from_dt now (mkDaysAgo n) = Option.some (dayFloor (now - (n : Int) * muday)) ∧
    resolve_to_dt now ("today") = Option.some (dayCeil now) ∧
    resolve_to_dt now ("yesterday") = Option.some (dayCeil (now - muday)) ∧
    resolve_to_dt now (mkDaysAgo n) = Option.some (dayCeil (now - (n : Int) * muday)) ∧
    resolve_from_dt (2 * muday + 5000) ("yesterday") =
      Option.some (dayFloor ((2 * muday + 5000) - muday)) ∧
    parse_timestamp ("86400000000") =
      Option.some (dayFloor ((2 * muday + 5000) - muday)) ∧
    parse_timestamp ("86399000000") =
      Option.some (dayFloor ((2 * muday + 5000) - muday) - 1000000) ∧
    filter_messages_by_date (2 * muday + 5000)
        [wUser ("s1") ("86400000000") ("x"), wUser ("s1") ("86399000000") ("y")]
        (Option.some ("yesterday")) Option.none =
      Except.ok [wUser ("s1") ("86400000000") ("x")] := by
  refine ⟨rfl, rfl, resolve_from_mkDaysAgo now n, rfl, rfl, resolve_to_mkDaysAgo now n,
    ?_, ?_, ?_, ?_⟩
  · decide
  · decide
  · decide
  · decide

/-! ### Lemmas on ingestion -/

theorem processLine_entry (path : String) (k : Nat) (raw : String) (d : JsonDecode) :
    (processLine path k raw d).1 = okEntry raw d := by
  unfold processLine okEntry
  split_ifs with hb
  · rfl
  · cases d with
    | decodeError e => rfl
    | nonObject => rfl
    | object et conv =>
      cases et with
      | none => rfl
      | some t =>
        cases hr : recognizedType t with
        | true =>
          cases conv with
          | ok e => simp [hr]
          | error msg => simp [hr]
        | false =>
          cases conv with
          | ok e => simp [hr]
          | error msg => simp [hr]

theorem isBadLine_blank (raw : String) (d : JsonDecode) (hb : strTrim raw = "") :
    isBadLine raw d = false := by
  unfold isBadLine
  rw [decide_eq_true hb]
  rfl

theorem isBadLine_of_entry (raw : String) (d : JsonDecode) (hb : ¬ strTrim raw = "") :
    isBadLine raw d = (okEntry raw d).isNone := by
  unfold isBadLine
  rw [decide_eq_false hb]
  rfl

theorem processLine_diag (path : String) (k : Nat) (raw : String) (d : JsonDecode) :
    ((processLine path k raw d).2.map Prod.fst =
      (if isBadLine raw d = true then [k] else [])) ∧
    ∀ pr ∈ (processLine path k raw d).2, ∃ tail, pr = (k, diagPrefix path k ++ tail) := by
  by_cases hb : strTrim raw = ""
  · have h1 : processLine path k raw d = (Option.none, []) := by
      unfold processLine; rw [if_pos hb]
    rw [h1, isBadLine_blank raw d hb]
    exact ⟨rfl, by intro pr hpr; simp at hpr⟩
  · have hbad := isBadLine_of_entry raw d hb
    cases d with
    | decodeError e =>
      have h1 : processLine path k raw (JsonDecode.decodeError e) =
          (Option.none, [(k, diagPrefix path k ++ (" | JSON decode error: " ++ e))]) := by
        unfold processLine; rw [if_neg hb]
      have h2 : isBadLine raw (JsonDecode.decodeError e) = true := by
        rw [hbad]
        unfold okEntry
        rw [if_neg hb]
        rfl
      rw [h1, h2]
      exact ⟨rfl, by
        intro pr hpr
        simp only [List.mem_singleton] at hpr
        exact ⟨" | JSON decode error: " ++ e, hpr⟩⟩
    | nonObject =>
      have h1 : processLine path k raw JsonDecode.nonObject =
          (Option.none, [(k, diagPrefix path k ++ (" is not a JSON object: " ++ strTrim raw))]) := by
        unfold processLine; rw [if_neg hb]
      have h2 : isBadLine raw JsonDecode.nonObject = true := by
        rw [hbad]
        unfold okEntry
        rw [if_neg hb]
        rfl
      rw [h1, h2]
      exact ⟨rfl, by
        intro pr hpr
        simp only [List.mem_singleton] at hpr
        exact ⟨" is not a JSON object: " ++ strTrim raw, hpr⟩⟩
    | object et conv =>
      cases et with
      | none =>
        have h1 : processLine path k raw (JsonDecode.object Option.none conv) =
            (Option.none,
             [(k, diagPrefix path k ++ (" is not a recognised message type: " ++ strTrim raw))]) := by
          unfold processLine; rw [if_neg hb]
          rfl
        have h2 : isBadLine raw (JsonDecode.object Option.none conv) = true := by
          rw [hbad]
          unfold okEntry
          rw [if_neg hb]
          rfl
        rw [h1, h2]
        exact ⟨rfl, by
          intro pr hpr
          simp only [List.mem_singleton] at hpr
          exact ⟨" is not a recognised message type: " ++ strTrim raw, hpr⟩⟩
      | some t =>
        cases hr : recognizedType t with
        | true =>
          cases conv with
          | ok e =>
            have h1 : processLine path k raw (JsonDecode.object (Option.some t) (Except.ok e)) =
                (Option.some e, []) := by
              unfold processLine; rw [if_neg hb]; simp [hr]
            have h2 : isBadLine raw (JsonDecode.object (Option.some t) (Except.ok e)) = false := by
              rw [hbad]
              unfold okEntry
              rw [if_neg hb]
              simp [hr]
            rw [h1, h2]
            exact ⟨rfl, by intro pr hpr; simp at hpr⟩
          | error msg =>
            have h1 : processLine path k raw
                  (JsonDecode.object (Option.some t) (Except.error msg)) =
                (Option.none, [(k, diagPrefix path k ++ (" | " ++ msg))]) := by
              unfold processLine; rw [if_neg hb]; simp [hr]
            have h2 : isBadLine raw (JsonDecode.object (Option.some t) (Except.error msg)) =
                true := by
              rw [hbad]
              unfold okEntry
              rw [if_neg hb]
              simp [hr]
            rw [h1, h2]
            exact ⟨rfl, by
              intro pr hpr
              simp only [List.mem_singleton] at hpr
              exact ⟨" | " ++ msg, hpr⟩⟩
        | false =>
          have h1 : processLine path k raw (JsonDecode.object (Option.some t) conv) =
              (Option.none,
               [(k, diagPrefix path k ++ (" is not a recognised message type: " ++ strTrim raw))]) := by
            unfold processLine; rw [if_neg hb]; simp [hr]
          have h2 : isBadLine raw (JsonDecode.object (Option.some t) conv) = true := by
            rw [hbad]
            unfold okEntry
            rw [if_neg hb]
            cases conv with
            | ok e => simp [hr]
            | error msg => simp [hr]
          rw [h1, h2]
          exact ⟨rfl, by
            intro pr hpr
            simp only [List.mem_singleton] at hpr
            exact ⟨" is not a recognised message type: " ++ strTrim raw, hpr⟩⟩

theorem diag_contains (path : String) (k : Nat) (tail : String) :
    hasSub path.data (diagPrefix path k ++ tail).data = true ∧
    hasSub (natReprS k).data (diagPrefix path k ++ tail).data = true := by
  constructor
  · have hshape : (diagPrefix path k ++ tail).data =
        ((("Line ").data ++ natDigits k ++ (" of ").data) ++ (path.data ++ tail.data)) := by
      simp [diagPrefix, natReprS, List.append_assoc]
    rw [hshape]
    exact hasSub_infix _ _ _
  · have hshape : (diagPrefix path k ++ tail).data =
        (("Line ").data ++ (natDigits k ++ ((" of ").data ++ (path.data ++ tail.data)))) := by
      simp [diagPrefix, natReprS, List.append_assoc]
    rw [hshape]
    exact hasSub_infix (("Line ").data) (natDigits k) ((" of ").data ++ (path.data ++ tail.data))

theorem loadGo_spec (path : String) :
    ∀ (lines : List (String × JsonDecode)) (k : Nat),
      (loadGo path k lines).1 =
        (lines.enumFrom k).filterMap (fun p => okEntry p.2.1 p.2.2) ∧
      (loadGo path k lines).2.map Prod.fst =
        (lines.enumFrom k).filterMap
          (fun p => if isBadLine p.2.1 p.2.2 = true then Option.some p.1 else Option.none) ∧
      ∀ pr ∈ (loadGo path k lines).2,
        hasSub path.data pr.2.data = true ∧ hasSub (natReprS pr.1).data pr.2.data = true := by
  intro lines
  induction lines with
  | nil =>
    intro k
    exact ⟨rfl, rfl, by intro pr hpr; simp [loadGo] at hpr⟩
  | cons ld rest ih =>
    intro k
    obtain ⟨raw, d⟩ := ld
    rcases ih (k + 1) with ⟨ih1, ih2, ih3⟩
    have hgo : loadGo path k ((raw, d) :: rest) =
        ((processLine path k raw d).1.toList ++ (loadGo path (k + 1) rest).1,
         (processLine path k raw d).2 ++ (loadGo path (k + 1) rest).2) := rfl
    have henum : ((raw, d) :: rest).enumFrom k = (k, (raw, d)) :: rest.enumFrom (k + 1) := rfl
    rcases processLine_diag path k raw d with ⟨hd1, hd2⟩
    refine ⟨?_, ?_, ?_⟩
    · rw [hgo, henum, List.filterMap_cons]
      have hpe := processLine_entry path k raw d
      cases hok : okEntry raw d with
      | none =>
        rw [hpe, hok]
        simp only [Option.toList_none, List.nil_append]
        exact ih1
      | some e =>
        rw [hpe, hok]
        simp only [Option.toList_some, List.singleton_append]
        rw [ih1]
    · rw [hgo, henum, List.filterMap_cons, List.map_append, hd1, ih2]
      cases hbad : isBadLine raw d with
      | false => simp
      | true => simp
    · rw [hgo]
      intro pr hpr
      rcases List.mem_append.mp hpr with hmem | hmem
      · rcases hd2 pr hmem with ⟨tail, htail⟩
        rw [htail]
        exact diag_contains path k tail
      · exact ih3 pr hmem

/-- Claim C9: load_transcript is total (no line aborts ingestion); its entries
are exactly the successfully converted non-blank lines in input order with no
sorting; every skipped non-blank line contributes exactly one diagnostic, the
diagnostics carry exactly the 0-based indices of those lines in order, and
each diagnostic text names the source path and the line number; in particular
an invalid-JSON line followed by a valid user-entry line yields a one-element
result and one diagnostic for line 0. -/
theorem load_transcript_skips_bad_lines_in_order (path : String)
    (lines : List (String × JsonDecode)) :
    (load_transcript path lines).1 =
      lines.enum.filterMap (fun p => okEntry p.2.1 p.2.2) ∧
    (load_transcript path lines).2.map Prod.fst =
      lines.enum.filterMap
        (fun p => if isBadLine p.2.1 p.2.2 = true then Option.some p.1 else Option.none) ∧
    (∀ pr ∈ (load_transcript path lines).2,
      hasSub path.data pr.2.data = true ∧ hasSub (natReprS pr.1).data pr.2.data = true) ∧
    (load_transcript ("t.jsonl")
        [(("not json"), JsonDecode.decodeError ("Expecting value")),
         (("line two"), JsonDecode.object (Option.some ("user"))
            (Except.ok (wUser ("s1") ("5") ("hi"))))]).1 =
      [wUser ("s1") ("5") ("hi")] ∧
    (load_transcript ("t.jsonl")
        [(("not json"), JsonDecode.decodeError ("Expecting value")),
         (("line two"), JsonDecode.object (Option.some ("user"))
            (Except.ok (wUser ("s1") ("5") ("hi"))))]).2.map Prod.fst = [0] := by
  rcases loadGo_spec path lines 0 with ⟨h1, h2, h3⟩
  exact ⟨h1, h2, h3, by decide, by decide⟩

/-- Witness for C9: the diagnostic produced for an invalid-JSON first line names
the source path and the 0-based line number. -/
theorem load_transcript_skips_bad_lines_in_order_witness :
    hasSub ("t.jsonl").data
      (((load_transcript ("t.jsonl") [(("not json"), JsonDecode.decodeError ("x"))]).2.getD 0
          (0, "")).2).data = true ∧
    hasSub (natReprS (((load_transcript ("t.jsonl")
          [(("not json"), JsonDecode.decodeError ("x"))]).2.getD 0 (0, "")).1)).data
      (((load_transcript ("t.jsonl") [(("not json"), JsonDecode.decodeError ("x"))]).2.getD 0
          (0, "")).2).data = true :=
  (load_transcript_skips_bad_lines_in_order ("t.jsonl")
      [(("not json"), JsonDecode.decodeError ("x"))]).2.2.1 _ (by decide)

/-! ### Claim C10: the date filter returns a subsequence -/

/-- Claim C10: whenever filter_messages_by_date returns successfully, the result
is a sublist of the input: the identical entries, in the same relative order,
without duplication. -/
theorem filter_by_date_returns_sublist (now : Int) (messages : List TranscriptEntry)
    (from_date to_date : Option String) (out : List TranscriptEntry)
    (h : filter_messages_by_date now messages from_date to_date = Except.ok out) :
    out.Sublist messages := by
  unfold filter_messages_by_date at h
  split_ifs at h with hc
  · cases h
    exact List.Sublist.refl messages
  · cases hfr : from_bound now from_date with
    | error e => rw [hfr] at h; exact absurd h (by simp)
    | ok fdt =>
      rw [hfr] at h
      cases htr : to_bound now to_date with
      | error e => rw [htr] at h; exact absurd h (by simp)
      | ok tdt =>
        rw [htr] at h
        have hout : messages.filter (keepMessage fdt tdt) = out := by
          cases h; rfl
        rw [← hout]
        exact List.filter_sublist messages

/-- Witness for C10: a concrete filtering call returning a strict subsequence. -/
theorem filter_by_date_returns_sublist_witness :
    List.Sublist [wUser ("s1") ("5") ("x")]
      [wUser ("s1") ("5") ("x"), wUser ("s1") ("-3") ("y")] :=
  filter_by_date_returns_sublist 0
    [wUser ("s1") ("5") ("x"), wUser ("s1") ("-3") ("y")]
    (Option.some ("0")) Option.none [wUser ("s1") ("5") ("x")] (by decide)

end ClaudeCodeLog
